import Mathlib

/-!
Verification development for the Topline feed-aggregation backend
(`src/backend/feed_aggregator.py`).  The Python code is shallowly embedded:
dicts become structures, network effects become explicit outcome parameters,
and numeric time is modelled in whole seconds.
-/

/-- Python truthiness of an optional string value (`None` and `""` are falsy). -/
def pyTruthy : Option String → Bool
  | none => false
  | some s => s != ""

/-- Lexicographic code-point comparison of character lists, the order Python
uses on `str`. -/
def listLt : List Char → List Char → Bool
  | [], [] => false
  | [], _ :: _ => true
  | _ :: _, [] => false
  | a :: as, b :: bs => if a < b then true else if b < a then false else listLt as bs

/-- Python `s < t` on strings. -/
def pyStrLt (s t : String) : Bool := listLt s.data t.data

/-- The normalized news-item dict built by `fetch_world_news` /
`fetch_rss_feed` / `fetch_news_api`.  Every such dict carries a string under
`published_at` (the `.get` default is the empty string), so the field is a plain `String`
with `""` standing for an absent value. -/
structure NItem where
  title : String
  source : String
  url : String
  published_at : String
  summary : String
  image_url : Option String
  category : String
deriving DecidableEq

/-- Insert one item into a `published_at`-descending list, after all strictly
greater keys and before equal ones: combined with `sortNews` this is the
unique stable descending sort, the behaviour of the Python statement
`list.sort(key=lambda x: x["published_at"], reverse=True)`. -/
def insertDesc (x : NItem) : List NItem → List NItem
  | [] => [x]
  | y :: ys =>
    if pyStrLt x.published_at y.published_at then y :: insertDesc x ys
    else x :: y :: ys

/-- Stable `published_at`-descending sort (see `insertDesc`). -/
def sortNews : List NItem → List NItem
  | [] => []
  | x :: xs => insertDesc x (sortNews xs)

/-- The duplicate-removal loop of `get_news`: walk the list keeping a `seen`
set of urls, keeping an item only when its url has not been seen. -/
def dedupByUrl : List NItem → List String → List NItem
  | [], _ => []
  | x :: xs, seen =>
    if seen.contains x.url then dedupByUrl xs seen
    else x :: dedupByUrl xs (x.url :: seen)

/-- The merge stage of `get_news`: concatenate the two fetch results, sort by
`published_at` descending (in place, before deduplication), then deduplicate
by url. -/
def get_news_merge (world_news rss_news : List NItem) : List NItem :=
  dedupByUrl (sortNews (world_news ++ rss_news)) []

/-- First item of `l` carrying url `u`. -/
def firstWithUrl (l : List NItem) (u : String) : Option NItem :=
  l.find? (fun y => y.url == u)

/-- One parsed feed entry as the trending code paths see it: `feedparser`
attributes collapsed to optional fields (`none` = attribute absent). -/
structure Entry where
  title : String
  link : String
  published : Option String
  media_content_url : Option String
  media_thumbnail_url : Option String
  enclosure_href : Option String
  image : Option String
  summary_og_image : Option String
deriving DecidableEq

/-- The trending-news dict appended by `get_trending_news` /
`fetch_trending_news` (keys `title, url, source, image_url, published_at,
type`). -/
structure TItem where
  title : String
  url : String
  source : String
  image_url : Option String
  published_at : Option String
  type : String
deriving DecidableEq

/-- The inline image extraction of `get_trending_news`: `media_content[0].url`
if present, else `media_thumbnail[0].url`, else `None`; followed by the dict
literal appended to `trending_news`. -/
def mkTrendItem (source : String) (e : Entry) : TItem :=
  { title := e.title
    url := e.link
    source := source
    image_url :=
      match e.media_content_url with
      | some u => some u
      | none => e.media_thumbnail_url
    published_at := e.published
    type := "rss-most-read" }

/-- A Google-Trends record (`fetch_google_trends` output shape); only carried
through the cache untouched. -/
structure Trend where
  topic : String
  source : String
  timestamp : String
deriving DecidableEq

/-- The `self._cache` dict initialised in `FeedAggregator.__init__`. -/
structure Cache where
  news : List NItem
  trends : List Trend
  last_update : Option Nat
  trending_news : List TItem
  trending_last_update : Option Nat
deriving DecidableEq

/-- `self._cache` as `__init__` leaves it. -/
def initCache : Cache :=
  { news := [], trends := [], last_update := none,
    trending_news := [], trending_last_update := none }

/-- Instance attributes assigned in `FeedAggregator.__init__`. -/
def feedAggregatorInstanceAttrs : List String :=
  ["trends_client", "news_api_key", "news_api_base_url", "_cache",
   "source_display_names"]

/-- Methods defined in the `FeedAggregator` class body (its only class-level
attributes). -/
def feedAggregatorMethods : List String :=
  ["__init__", "_extract_image_from_entry", "fetch_full_content",
   "fetch_news_api", "_detect_category", "fetch_google_trends",
   "get_latest_data", "get_trending_news", "fetch_trending_news"]

/-- Python attribute lookup `self.<name>` on a `FeedAggregator` instance:
instance dict first, then the class; module-level globals do not take part.
`false` means the lookup raises `AttributeError`. -/
def feedAggregatorHasAttr (name : String) : Bool :=
  feedAggregatorInstanceAttrs.contains name || feedAggregatorMethods.contains name

/-- `get_latest_data` cache-expiry test: no `last_update`, or
`now - last_update > timedelta(minutes=2)` (times in seconds; Nat truncated
subtraction agrees with the Python comparison since a negative timedelta is
never `> 2 minutes` either). -/
def newsExpired (c : Cache) (now : Nat) : Bool :=
  match c.last_update with
  | none => true
  | some lu => now - lu > 120

/-- `get_trending_news` cache-expiry test (5-minute TTL). -/
def trendingExpired (c : Cache) (now : Nat) : Bool :=
  match c.trending_last_update with
  | none => true
  | some lu => now - lu > 300

/-- What `get_latest_data` returns: the whole `self._cache` dict on the
non-refresh path, or the three-key fallback dict built in its `except`
handler. -/
inductive NewsRet where
  | full (c : Cache)
  | fallback (news : List NItem) (trends : List Trend) (last_update : Option Nat)
deriving DecidableEq

/-- Result of one `get_latest_data` call: the cache state it leaves behind,
the returned value, and how many times the refresh branch was entered. -/
structure LatestResult where
  cache : Cache
  ret : NewsRet
  refreshAttempts : Nat
deriving DecidableEq

/-- `FeedAggregator.get_latest_data`.  The first step of the refresh branch is the
bound-method lookup `self.fetch_rss_feeds`; the inventory above has no such
entry, so the lookup raises `AttributeError`, caught by the `except` handler
which returns the old cached values.  The `hasAttr`-true arm is unreachable
for this class and is modelled as the cache write a successful refresh would
perform, so the theorems below genuinely depend on the lookup failing. -/
def get_latest_data (c : Cache) (now : Nat) : LatestResult :=
  if newsExpired c now then
    if feedAggregatorHasAttr "fetch_rss_feeds" then
      let cNew : Cache := { c with news := [], last_update := some now }
      ⟨cNew, NewsRet.full cNew, 1⟩
    else
      ⟨c, NewsRet.fallback c.news c.trends c.last_update, 1⟩
  else
    ⟨c, NewsRet.full c, 0⟩

/-- Network outcome of one trending-feed fetch inside `get_trending_news`:
an exception (caught by the per-feed handler, `continue`), or a response with
a status and the entries `feedparser.parse` yields for its body. -/
inductive FeedOutcome where
  | exn
  | resp (status : Nat) (entries : List Entry)
deriving DecidableEq

/-- Items one feed contributes to `trending_news`: nothing unless the fetch
returned status 200, else the first 5 entries formatted by `mkTrendItem`. -/
def feedItems (source : String) (o : FeedOutcome) : List TItem :=
  match o with
  | FeedOutcome.exn => []
  | FeedOutcome.resp status entries =>
    if status == 200 then (entries.take 5).map (mkTrendItem source) else []

/-- The `most_read_feeds` dict of `get_trending_news`, in declaration order. -/
def most_read_feeds : List (String × String) :=
  [("ynet", "https://www.ynet.co.il/Integration/StoryRss1854.xml"),
   ("mako", "https://rcs.mako.co.il/rssPopular.xml"),
   ("walla", "https://rss.walla.co.il/feed/22"),
   ("n12", "https://www.mako.co.il/rss/most-popular.xml")]

/-- The `trending_news` accumulator after the fetch loop of
`get_trending_news`, given the network outcome of each url. -/
def refreshItems (fetch : String → FeedOutcome) : List TItem :=
  (most_read_feeds.map (fun sf => feedItems sf.1 (fetch sf.2))).flatten

/-- What `get_trending_news` returns: `TrendingRet.none` models the Python
`None` produced when the `try` block completes without hitting a `return`
(the fresh-cache path), the other arms are the explicit `return`s. -/
inductive TrendingRet where
  | none
  | items (l : List TItem)
  | newsItems (l : List NItem)
deriving DecidableEq

/-- Result of one `get_trending_news` call. -/
structure TrendingResult where
  cache : Cache
  ret : TrendingRet
  refreshAttempts : Nat
deriving DecidableEq

/-- `FeedAggregator.get_trending_news`: on an expired cache, fetch the four
most-read feeds; update the cache and return only when something was
fetched; otherwise fall back to the cached trending list, then to the first
10 cached news items.  On a non-expired cache the `try` block falls through
and the function returns `None`. -/
def get_trending_news (c : Cache) (now : Nat) (fetch : String → FeedOutcome) :
    TrendingResult :=
  if trendingExpired c now then
    let tn := refreshItems fetch
    if tn.isEmpty then
      if c.trending_news.isEmpty then
        ⟨c, TrendingRet.newsItems (c.news.take 10), 1⟩
      else
        ⟨c, TrendingRet.items c.trending_news, 1⟩
    else
      ⟨{ c with trending_news := tn, trending_last_update := some now },
       TrendingRet.items tn, 1⟩
  else
    ⟨c, TrendingRet.none, 0⟩

/-- `MAX_RETRIES` (module constant). -/
def MAX_RETRIES : Nat := 3

/-- `RETRY_DELAY` in seconds (module constant). -/
def RETRY_DELAY : Nat := 1

/-- Outcome of one attempt inside `fetch_with_retry`: a 200 response with a
body, a non-200 status, a timeout, or another transport exception. -/
inductive FetchOutcome where
  | ok (body : String)
  | status (code : Nat)
  | timeout
  | exn
deriving DecidableEq

/-- Body of a 200 response, if any (`none` for a non-200 status, a timeout
or a transport exception — the outcomes the loop falls through on). -/
def okBody : FetchOutcome → Option String
  | FetchOutcome.ok b => some b
  | _ => none

/-- Observable trace of one `fetch_with_retry` call: returned value, number
of attempts performed, and the list of back-off sleeps (seconds) in order. -/
structure RetryTrace where
  result : Option String
  attempts : Nat
  sleeps : List Nat
deriving DecidableEq

/-- The retry loop of `fetch_with_retry`; `fuel` is the number of attempts
still allowed (`MAX_RETRIES - attempt`).  A 200 response returns its body at
once; any other outcome falls through and, when another attempt remains,
sleeps `RETRY_DELAY * (attempt + 1)` seconds and retries. -/
def fwrGo (outcomes : Nat → FetchOutcome) : Nat → Nat → List Nat → RetryTrace
  | 0, attempt, sleeps => ⟨none, attempt, sleeps⟩
  | fuel + 1, attempt, sleeps =>
    match okBody (outcomes attempt) with
    | some b => ⟨some b, attempt + 1, sleeps⟩
    | none =>
      if fuel == 0 then ⟨none, attempt + 1, sleeps⟩
      else fwrGo outcomes fuel (attempt + 1)
        (sleeps ++ [RETRY_DELAY * (attempt + 1)])

/-- `fetch_with_retry`, with the network modelled as a map from attempt index
to outcome. -/
def fetch_with_retry (outcomes : Nat → FetchOutcome) : RetryTrace :=
  fwrGo outcomes MAX_RETRIES 0 []

/-- The `{content, image_url, author}` dict returned by
`fetch_full_content`. -/
structure FullContent where
  content : String
  image_url : Option String
  author : Option String
deriving DecidableEq

/-- Network outcome of the article-page GET inside `fetch_full_content`. -/
inductive HttpOutcome where
  | exn
  | resp (status : Nat) (html : String)
deriving DecidableEq

/-- The `RSS_FEEDS` registry: each row maps exactly the keys `main` and
`trending` to feed urls (`haaretz.trending` is `None`).  No row carries
`content_selector`, `image_selector` or `author_selector` keys. -/
def RSS_FEEDS : List (String × List (String × Option String)) :=
  [("ynet",
    [("main", some "https://www.ynet.co.il/Integration/StoryRss2.xml"),
     ("trending", some "https://www.ynet.co.il/Integration/StoryRss1854.xml")]),
   ("mako",
    [("main", some "https://www.mako.co.il/RSS/RSSNewsFlash.xml"),
     ("trending", some "https://rcs.mako.co.il/rssPopular.xml")]),
   ("walla",
    [("main", some "https://rss.walla.co.il/feed/1"),
     ("trending", some "https://rss.walla.co.il/feed/22")]),
   ("n12",
    [("main", some "https://www.n12.co.il/rss/news"),
     ("trending", some "https://www.mako.co.il/rss/most-popular.xml")]),
   ("haaretz",
    [("main", some "https://www.haaretz.co.il/srv/rss"),
     ("trending", none)])]

/-- Python dict subscription `d[k]`: `some` the stored value, `none` when the
lookup raises `KeyError`. -/
def dictGet {α : Type} (d : List (String × α)) (k : String) : Option α :=
  (d.find? (fun p => p.1 == k)).map (fun p => p.2)

/-- `FeedAggregator.fetch_full_content`.  On a 200 response it evaluates
`RSS_FEEDS[source]["content_selector"]`; one of the two subscriptions raises
`KeyError`, which the bare `except` swallows, yielding the all-absent
default.  The selector arm is unreachable (no registry row carries selector
keys) and is modelled as a non-absent result so the theorem depends on the
actual shape of the registry. -/
def fetch_full_content (_url source : String) (out : HttpOutcome) : FullContent :=
  match out with
  | HttpOutcome.exn => ⟨"", none, none⟩
  | HttpOutcome.resp status html =>
    if status == 200 then
      match dictGet RSS_FEEDS source with
      | none => ⟨"", none, none⟩
      | some feed_info =>
        match dictGet feed_info "content_selector" with
        | none => ⟨"", none, none⟩
        | some _ => ⟨html, some html, some html⟩
    else ⟨"", none, none⟩

/-- `FeedAggregator._extract_image_from_entry`: `media_content[0].url`, else
`enclosures[0].href`, else `entry.image`, else the `og:image` found in
`summary_detail`. -/
def _extract_image_from_entry (e : Entry) : Option String :=
  match e.media_content_url with
  | some u => some u
  | none =>
    match e.enclosure_href with
    | some h => some h
    | none =>
      match e.image with
      | some i => some i
      | none => e.summary_og_image

/-- The per-entry image selection of `fetch_trending_news`: use the article
page `image_url` when truthy, otherwise fall back to the feed-entry
extraction. -/
def trendingImage (e : Entry) (fc : FullContent) : Option String :=
  let i := if pyTruthy fc.image_url then fc.image_url else none
  if pyTruthy i then i else _extract_image_from_entry e

/-- Network outcome of the News API request inside `fetch_news_api`. -/
inductive ApiOutcome where
  | exn
  | resp (status : Nat) (articles : List NItem)
deriving DecidableEq

/-- `FeedAggregator.fetch_news_api`.  With a falsy key it returns `[]`
before any request; otherwise its first statement evaluates
`self.NEWS_API_PARAMS.copy()` — the constant lives only at module level, so
the attribute lookup raises `AttributeError`, swallowed by the catch-all
handler, which returns `[]`.  The second pair component counts completed
HTTP requests; the `hasAttr`-true arm is unreachable and modelled as a
completed request so the theorem depends on the attribute inventory. -/
def fetch_news_api (news_api_key : Option String) (_category : Option String)
    (out : ApiOutcome) : List NItem × Nat :=
  if pyTruthy news_api_key then
    if feedAggregatorHasAttr "NEWS_API_PARAMS" then
      match out with
      | ApiOutcome.resp 200 articles => (articles, 1)
      | ApiOutcome.resp _ _ => ([], 1)
      | ApiOutcome.exn => ([], 0)
    else ([], 0)
  else ([], 0)

/-- `s1 == s2[:len(s1)]` on character lists: does the needle match at the
front of the haystack? -/
def headMatch : List Char → List Char → Bool
  | [], _ => true
  | _ :: _, [] => false
  | n :: ns, h :: hs => n == h && headMatch ns hs

/-- Does the needle occur (contiguously) anywhere in the haystack? -/
def occursIn (needle : List Char) : List Char → Bool
  | [] => needle.isEmpty
  | h :: hs => headMatch needle (h :: hs) || occursIn needle hs

/-- Python `needle in hay` on strings (substring containment). -/
def strIn (needle hay : String) : Bool := occursIn needle.data hay.data

/-- ASCII lowering; agrees with Python `str.lower()` on the ASCII and Hebrew
text this module handles (Hebrew has no case). -/
def lowerChar (c : Char) : Char :=
  if 'A' ≤ c ∧ c ≤ 'Z' then Char.ofNat (c.toNat + 32) else c

/-- `text.lower()` for the alphabets used here. -/
def pyLower (s : String) : String := String.mk (s.data.map lowerChar)

/-- The category table of `FeedAggregator._detect_category`, in declaration
(= dict iteration) order: category, Hebrew keywords, English keywords. -/
def categoriesHeEn : List (String × List String × List String) :=
  [("politics", (["פוליטי", "ממשלה", "כנסת", "בחירות", "מפלגה"],
     ["politics", "government", "election", "party", "minister"])),
   ("business", (["כלכלה", "בורסה", "שוק", "השקעות", "חברה"],
     ["business", "economy", "market", "stock", "company"])),
   ("technology", (["טכנולוגיה", "הייטק", "חדשנות", "דיגיטל", "תוכנה"],
     ["technology", "tech", "innovation", "digital", "software"])),
   ("sports", (["ספורט", "כדורגל", "כדורסל", "תחרות", "שחקן"],
     ["sports", "football", "basketball", "game", "player"])),
   ("entertainment", (["בידור", "תרבות", "סרט", "מוזיקה", "טלוויזיה"],
     ["entertainment", "culture", "movie", "music", "tv"])),
   ("health", (["בריאות", "רפואה", "מחלה", "טיפול", "חולה"],
     ["health", "medical", "disease", "treatment", "patient"])),
   ("science", (["מדע", "מחקר", "חלל", "פיזיקה", "כימיה"],
     ["science", "research", "space", "physics", "chemistry"]))]

/-- `FeedAggregator._detect_category`: lower-case title, a space and content,
then return the first category (in table order) any of whose Hebrew or
English keywords occurs in the text, else `general`. -/
def _detect_category (title content : String) : String :=
  let text := pyLower (title ++ " " ++ content)
  match categoriesHeEn.find?
      (fun c => c.2.1.any (fun kw => strIn kw text) ||
                c.2.2.any (fun kw => strIn kw text)) with
  | some c => c.1
  | none => "general"

/-- Keyword-occurrence score of one category, following the words of the spec:
count of keyword occurrences (substring match) across both language lists. -/
def specScore (text : String) (kws : List String × List String) : Nat :=
  (kws.1.filter (fun kw => strIn kw text)).length +
  (kws.2.filter (fun kw => strIn kw text)).length

/-- The categorizer as the spec describes it (for refinement comparison):
the category with the strictly highest score wins, `general` when the
maximum score is 0, ties at a positive maximum resolve to the first category
in table order. -/
def specCategorizer (title content : String) : String :=
  let text := pyLower (title ++ " " ++ content)
  let scores := categoriesHeEn.map (fun c => (c.1, specScore text c.2))
  let maxScore := (scores.map (fun p => p.2)).foldl Nat.max 0
  if maxScore == 0 then "general"
  else
    match scores.find? (fun p => p.2 == maxScore) with
    | some p => p.1
    | none => "general"

/-- Descending-recency order on two adjacent trending items: both dated and
second not newer, or second undated; an undated item before a dated one is
out of order. -/
def optGEb : Option String → Option String → Bool
  | some a, some b => !(pyStrLt a b)
  | some _, none => true
  | none, none => true
  | none, some _ => false

/-- Adjacent-pairs check that a trending list is in `published_at`-descending
order with absent values last. -/
def chainDesc : List TItem → Bool
  | [] => true
  | [_] => true
  | a :: b :: rest => optGEb a.published_at b.published_at && chainDesc (b :: rest)

/-- `a ≥ b` on `published_at` keys of news items (the order the sort uses). -/
def pubGE (a b : NItem) : Prop := pyStrLt a.published_at b.published_at = false

/-- Concrete items and inputs used by witnesses and counterexamples. -/
def aItem : NItem := ⟨"a", "s", "u", "2024-01-01", "", none, "general"⟩

def bItem : NItem := ⟨"b", "s", "u", "2024-01-02", "", none, "general"⟩

def emptyUrlItem : NItem := ⟨"e", "s", "", "2024-03-03", "", none, "general"⟩

def tItemW : TItem := ⟨"t", "https://x", "ynet", none, some "2024-01-01", "rss-most-read"⟩

def cacheW : Cache :=
  { news := [aItem], trends := [], last_update := some 0,
    trending_news := [tItemW], trending_last_update := some 0 }

def fetchFailAll : String → FeedOutcome := fun _ => FeedOutcome.exn

def cacheFreshTrending : Cache :=
  { news := [aItem], trends := [], last_update := some 0,
    trending_news := [tItemW], trending_last_update := some 0 }

def entryC5a : Entry := ⟨"t1", "u1", some "2024-01-01", none, none, none, none, none⟩

def entryC5b : Entry := ⟨"t2", "u2", some "2024-02-02", none, none, none, none, none⟩

def fetchC5 : String → FeedOutcome := fun u =>
  if u == "https://www.ynet.co.il/Integration/StoryRss1854.xml" then
    FeedOutcome.resp 200 [entryC5a, entryC5b]
  else FeedOutcome.exn

def outcomes404 : Nat → FetchOutcome := fun i =>
  if i == 0 then FetchOutcome.status 404 else FetchOutcome.ok "x"

lemma listLt_irrefl (l : List Char) : listLt l l = false := by
  induction l with
  | nil => rfl
  | cons a as ih => simp [listLt, lt_irrefl, ih]

lemma listLt_trans {a b c : List Char} (h1 : listLt a b = true)
    (h2 : listLt b c = true) : listLt a c = true := by
  induction a generalizing b c with
  | nil =>
    cases b with
    | nil => simp [listLt] at h1
    | cons y ys =>
      cases c with
      | nil => simp [listLt] at h2
      | cons z zs => simp [listLt]
  | cons x xs ih =>
    cases b with
    | nil => simp [listLt] at h1
    | cons y ys =>
      cases c with
      | nil => simp [listLt] at h2
      | cons z zs =>
        simp only [listLt] at h1 h2 ⊢
        by_cases hxy : x < y
        · by_cases hyz : y < z
          · simp [lt_trans hxy hyz]
          · by_cases hzy : z < y
            · simp [hyz, hzy] at h2
            · have hyzeq : y = z := le_antisymm (not_lt.mp hzy) (not_lt.mp hyz)
              subst hyzeq
              simp [hxy]
        · by_cases hyx : y < x
          · simp [hxy, hyx] at h1
          · have hxyeq : x = y := le_antisymm (not_lt.mp hyx) (not_lt.mp hxy)
            subst hxyeq
            simp only [lt_irrefl, if_false] at h1
            by_cases hxz : x < z
            · simp [hxz]
            · by_cases hzx : z < x
              · simp [hxz, hzx] at h2
              · have hxzeq : x = z := le_antisymm (not_lt.mp hzx) (not_lt.mp hxz)
                subst hxzeq
                simp only [lt_irrefl, if_false] at h2 ⊢
                exact ih h1 h2

lemma listLt_conn {a b : List Char} (h1 : listLt a b = false)
    (h2 : listLt b a = false) : a = b := by
  induction a generalizing b with
  | nil =>
    cases b with
    | nil => rfl
    | cons y ys => simp [listLt] at h1
  | cons x xs ih =>
    cases b with
    | nil => simp [listLt] at h2
    | cons y ys =>
      simp only [listLt] at h1 h2
      by_cases hxy : x < y
      · simp [hxy] at h1
      · by_cases hyx : y < x
        · simp [hxy, hyx] at h2
        · have hxyeq : x = y := le_antisymm (not_lt.mp hyx) (not_lt.mp hxy)
          subst hxyeq
          simp only [lt_irrefl, if_false] at h1 h2
          rw [ih h1 h2]

lemma pyStrLt_irrefl (s : String) : pyStrLt s s = false := listLt_irrefl s.data

lemma pyStrLt_trans {s t u : String} (h1 : pyStrLt s t = true)
    (h2 : pyStrLt t u = true) : pyStrLt s u = true := listLt_trans h1 h2

lemma pyStrLt_conn {s t : String} (h1 : pyStrLt s t = false)
    (h2 : pyStrLt t s = false) : s = t := by
  rcases s with ⟨sd⟩
  rcases t with ⟨td⟩
  exact congrArg String.mk (listLt_conn h1 h2)

/-- Greater-or-equal transfer: from two non-strict descents, a third. -/
lemma pyStrLt_false_trans {s t u : String} (h1 : pyStrLt s t = false)
    (h2 : pyStrLt t u = false) : pyStrLt s u = false := by
  by_contra h
  have hsu : pyStrLt s u = true := by
    cases hx : pyStrLt s u with
    | false => exact absurd hx h
    | true => rfl
  by_cases hts : pyStrLt t s = true
  · have := pyStrLt_trans hts hsu
    rw [this] at h2
    exact Bool.noConfusion h2
  · have hts2 : pyStrLt t s = false := by
      cases hx : pyStrLt t s with
      | false => rfl
      | true => exact absurd hx hts
    have : t = s := pyStrLt_conn hts2 h1
    subst this
    rw [hsu] at h2
    exact Bool.noConfusion h2

lemma pyStrLt_asymm {s t : String} (h : pyStrLt s t = true) :
    pyStrLt t s = false := by
  cases hx : pyStrLt t s with
  | false => rfl
  | true =>
    have hss := pyStrLt_trans h hx
    rw [pyStrLt_irrefl] at hss
    exact Bool.noConfusion hss

lemma insertDesc_perm (x : NItem) (l : List NItem) :
    (insertDesc x l).Perm (x :: l) := by
  induction l with
  | nil => exact List.Perm.refl _
  | cons y ys ih =>
    rw [insertDesc]
    by_cases h : pyStrLt x.published_at y.published_at = true
    · rw [if_pos h]
      exact (ih.cons y).trans (List.Perm.swap x y ys)
    · rw [if_neg h]

lemma sortNews_perm (l : List NItem) : (sortNews l).Perm l := by
  induction l with
  | nil => exact List.Perm.refl _
  | cons x xs ih =>
    rw [sortNews]
    exact (insertDesc_perm x (sortNews xs)).trans (ih.cons x)

lemma insertDesc_pairwise {x : NItem} {l : List NItem}
    (h : l.Pairwise pubGE) : (insertDesc x l).Pairwise pubGE := by
  induction l with
  | nil => simp [insertDesc, List.pairwise_singleton]
  | cons y ys ih =>
    obtain ⟨hy, hys⟩ := List.pairwise_cons.mp h
    rw [insertDesc]
    by_cases hlt : pyStrLt x.published_at y.published_at = true
    · rw [if_pos hlt]
      refine List.pairwise_cons.mpr ⟨?_, ih hys⟩
      intro z hz
      rcases List.mem_cons.mp ((insertDesc_perm x ys).mem_iff.mp hz) with hzx | hzys
      · rw [hzx]
        exact pyStrLt_asymm hlt
      · exact hy z hzys
    · rw [if_neg hlt]
      have hxy : pyStrLt x.published_at y.published_at = false :=
        Bool.eq_false_iff.mpr hlt
      refine List.pairwise_cons.mpr ⟨?_, h⟩
      intro z hz
      rcases List.mem_cons.mp hz with hzy | hzys
      · rw [hzy]
        exact hxy
      · exact pyStrLt_false_trans hxy (hy z hzys)

lemma sortNews_pairwise (l : List NItem) : (sortNews l).Pairwise pubGE := by
  induction l with
  | nil => exact List.Pairwise.nil
  | cons x xs ih => exact insertDesc_pairwise ih

lemma filter_insertDesc (x : NItem) (l : List NItem) (k : String) :
    (insertDesc x l).filter (fun y => y.published_at == k) =
      if x.published_at == k then
        x :: l.filter (fun y => y.published_at == k)
      else l.filter (fun y => y.published_at == k) := by
  induction l with
  | nil =>
    rw [insertDesc]
    by_cases hk : (x.published_at == k) = true
    · simp [hk]
    · simp [List.filter, hk]
  | cons y ys ih =>
    rw [insertDesc]
    by_cases hlt : pyStrLt x.published_at y.published_at = true
    · rw [if_pos hlt]
      by_cases hk : (x.published_at == k) = true
      · have hyk : (y.published_at == k) = false := by
          cases hyk : (y.published_at == k) with
          | false => rfl
          | true =>
            have h1 : x.published_at = k := eq_of_beq hk
            have h2 : y.published_at = k := eq_of_beq hyk
            rw [h1, h2, pyStrLt_irrefl] at hlt
            exact Bool.noConfusion hlt
        simp only [List.filter_cons, hyk, if_false, Bool.false_eq_true, ite_false, ih, hk, if_true]
      · have hk2 : (x.published_at == k) = false := Bool.eq_false_iff.mpr hk
        simp only [List.filter_cons, ih, hk2, Bool.false_eq_true, ite_false, if_false]
    · rw [if_neg hlt]
      by_cases hk : (x.published_at == k) = true
      · simp only [List.filter_cons, hk, ite_true, if_true]
      · have hk2 : (x.published_at == k) = false := Bool.eq_false_iff.mpr hk
        simp only [List.filter_cons, hk2, Bool.false_eq_true, ite_false, if_false]

lemma sortNews_filter (l : List NItem) (k : String) :
    (sortNews l).filter (fun y => y.published_at == k) =
      l.filter (fun y => y.published_at == k) := by
  induction l with
  | nil => rfl
  | cons x xs ih =>
    rw [sortNews, filter_insertDesc, ih]
    by_cases hk : (x.published_at == k) = true
    · simp only [List.filter_cons, hk, ite_true, if_true]
    · have hk2 : (x.published_at == k) = false := Bool.eq_false_iff.mpr hk
      simp only [List.filter_cons, hk2, Bool.false_eq_true, ite_false, if_false]

lemma dedup_sublist (l : List NItem) (seen : List String) :
    (dedupByUrl l seen).Sublist l := by
  induction l generalizing seen with
  | nil => exact List.Sublist.refl _
  | cons x xs ih =>
    rw [dedupByUrl]
    by_cases h : seen.contains x.url = true
    · rw [if_pos h]
      exact (ih seen).cons x
    · rw [if_neg h]
      exact (ih (x.url :: seen)).cons₂ x

lemma dedup_find {l : List NItem} {seen : List String} {x : NItem}
    (hx : x ∈ dedupByUrl l seen) :
    seen.contains x.url = false ∧
      l.find? (fun y => y.url == x.url) = some x := by
  induction l generalizing seen with
  | nil => simp [dedupByUrl] at hx
  | cons y ys ih =>
    rw [dedupByUrl] at hx
    by_cases h : seen.contains y.url = true
    · rw [if_pos h] at hx
      obtain ⟨hns, hfind⟩ := ih hx
      have hyx : ¬ ((y.url == x.url) = true) := by
        intro hyx
        rw [eq_of_beq hyx] at h
        rw [h] at hns
        exact Bool.noConfusion hns
      refine ⟨hns, ?_⟩
      rw [List.find?_cons_of_neg ys hyx, hfind]
    · rw [if_neg h] at hx
      have hsf : seen.contains y.url = false := Bool.eq_false_iff.mpr h
      rcases List.mem_cons.mp hx with hxy | hxrest
      · subst hxy
        exact ⟨hsf, List.find?_cons_of_pos ys (beq_self_eq_true x.url)⟩
      · obtain ⟨hns, hfind⟩ := ih hxrest
        have hsplit : (x.url == y.url) = false ∧ seen.contains x.url = false := by
          have hor : (x.url == y.url || seen.contains x.url) = false := by
            simpa [List.contains_cons] using hns
          exact ⟨(Bool.or_eq_false_iff.mp hor).1, (Bool.or_eq_false_iff.mp hor).2⟩
        have hyx : ¬ ((y.url == x.url) = true) := by
          intro hyx
          have hxy2 : (x.url == y.url) = true := by
            rw [eq_of_beq hyx, beq_self_eq_true]
          rw [hxy2] at hsplit
          exact Bool.noConfusion hsplit.1
        refine ⟨hsplit.2, ?_⟩
        rw [List.find?_cons_of_neg ys hyx, hfind]

lemma dedup_nodup (l : List NItem) (seen : List String) :
    ((dedupByUrl l seen).map (fun x => x.url)).Nodup ∧
      ∀ u ∈ (dedupByUrl l seen).map (fun x => x.url),
        seen.contains u = false := by
  induction l generalizing seen with
  | nil => exact ⟨List.nodup_nil, by simp [dedupByUrl]⟩
  | cons x xs ih =>
    rw [dedupByUrl]
    by_cases h : seen.contains x.url = true
    · rw [if_pos h]
      exact ih seen
    · rw [if_neg h]
      obtain ⟨hnd, hni⟩ := ih (x.url :: seen)
      constructor
      · rw [List.map_cons]
        refine List.nodup_cons.mpr ⟨?_, hnd⟩
        intro hmem
        have hc := hni x.url hmem
        rw [List.contains_cons, beq_self_eq_true] at hc
        exact Bool.noConfusion hc
      · intro u hu
        rw [List.map_cons] at hu
        rcases List.mem_cons.mp hu with hux | hurest
        · rw [hux]
          exact Bool.eq_false_iff.mpr h
        · have hc := hni u hurest
          rw [List.contains_cons] at hc
          exact (Bool.or_eq_false_iff.mp hc).2

lemma dedup_exists_url {l : List NItem} {seen : List String} {u : String}
    (hin : ∃ x ∈ l, x.url = u) (hns : seen.contains u = false) :
    ∃ x ∈ dedupByUrl l seen, x.url = u := by
  induction l generalizing seen with
  | nil => simp at hin
  | cons y ys ih =>
    rw [dedupByUrl]
    by_cases h : seen.contains y.url = true
    · rw [if_pos h]
      obtain ⟨x, hx, hxu⟩ := hin
      rcases List.mem_cons.mp hx with hxy | hxrest
      · subst hxy
        rw [hxu] at h
        rw [h] at hns
        exact Bool.noConfusion hns
      · exact ih ⟨x, hxrest, hxu⟩ hns
    · rw [if_neg h]
      by_cases hyu : y.url = u
      · exact ⟨y, List.mem_cons_self y _, hyu⟩
      · obtain ⟨x, hx, hxu⟩ := hin
        rcases List.mem_cons.mp hx with hxy | hxrest
        · subst hxy
          exact absurd hxu hyu
        · have hns2 : (y.url :: seen).contains u = false := by
            rw [List.contains_cons]
            refine Bool.or_eq_false_iff.mpr ⟨?_, hns⟩
            exact beq_eq_false_iff_ne.mpr (fun he => hyu he.symm)
          obtain ⟨z, hz, hzu⟩ := ih ⟨x, hxrest, hxu⟩ hns2
          exact ⟨z, List.mem_cons_of_mem y hz, hzu⟩

lemma hasAttr_fetch_rss : feedAggregatorHasAttr "fetch_rss_feeds" = false := by
  decide

lemma hasAttr_news_params : feedAggregatorHasAttr "NEWS_API_PARAMS" = false := by
  decide

lemma eq_empty_of_pyStrLt_empty {s : String} (h : pyStrLt "" s = false) :
    s = "" := by
  rcases s with ⟨d⟩
  cases d with
  | nil => rfl
  | cons c cs =>
    have ht : listLt [] (c :: cs) = true := rfl
    rw [pyStrLt] at h
    rw [show ("".data) = ([] : List Char) from rfl] at h
    rw [ht] at h
    exact Bool.noConfusion h

lemma fwrGo_succ (outcomes : Nat → FetchOutcome) (fuel attempt : Nat)
    (sleeps : List Nat) :
    fwrGo outcomes (fuel + 1) attempt sleeps =
      match okBody (outcomes attempt) with
      | some b => ⟨some b, attempt + 1, sleeps⟩
      | none =>
        if fuel == 0 then ⟨none, attempt + 1, sleeps⟩
        else fwrGo outcomes fuel (attempt + 1)
          (sleeps ++ [RETRY_DELAY * (attempt + 1)]) := rfl

/-- C1: if every fetcher call during a refresh fails (produces nothing), the
previous cache entry for the view is returned unchanged, its `lastUpdate` is
not advanced, and the entry is never cleared by the failed refresh — for
every refresh of both the news and trending views.  (For the news view every
refresh fails unconditionally, via the `AttributeError`.) -/
theorem claim1_failed_refresh_preserves_cache (c : Cache) (now : Nat)
    (fetch : String → FeedOutcome)
    (hn : newsExpired c now = true) (ht : trendingExpired c now = true)
    (hf : refreshItems fetch = []) (htn : c.trending_news ≠ []) :
    get_latest_data c now =
      ⟨c, NewsRet.fallback c.news c.trends c.last_update, 1⟩ ∧
    (get_trending_news c now fetch).cache = c ∧
    (get_trending_news c now fetch).ret = TrendingRet.items c.trending_news := by
  have htn2 : c.trending_news.isEmpty = false := by
    cases hcc : c.trending_news with
    | nil => exact absurd hcc htn
    | cons a l => rfl
  refine ⟨?_, ?_, ?_⟩
  · simp [get_latest_data, hn, hasAttr_fetch_rss]
  · simp [get_trending_news, ht, hf, htn2]
  · simp [get_trending_news, ht, hf, htn2]

/-- Witness for C1 at a concrete stale cache whose every trending fetch
raises. -/
theorem claim1_witness :
    newsExpired cacheW 1000 = true ∧ trendingExpired cacheW 1000 = true ∧
    refreshItems fetchFailAll = [] ∧ cacheW.trending_news ≠ [] ∧
    get_latest_data cacheW 1000 =
      ⟨cacheW, NewsRet.fallback cacheW.news cacheW.trends cacheW.last_update, 1⟩ ∧
    (get_trending_news cacheW 1000 fetchFailAll).ret =
      TrendingRet.items cacheW.trending_news :=
  ⟨by decide, by decide, by decide, by decide,
   (claim1_failed_refresh_preserves_cache cacheW 1000 fetchFailAll
     (by decide) (by decide) (by decide) (by decide)).1,
   (claim1_failed_refresh_preserves_cache cacheW 1000 fetchFailAll
     (by decide) (by decide) (by decide) (by decide)).2.2⟩

/-- C2: every call to `get_latest_data` leaves `self._cache` unchanged and
returns the previously cached data (the whole cache dict on the fresh path,
the three-key fallback dict after the refresh-branch `AttributeError` on
the stale path); in particular the news cache can never be populated through
this operation. -/
theorem claim2_get_latest_data_is_read_only (c : Cache) (now : Nat) :
    (get_latest_data c now).cache = c ∧
    (get_latest_data c now).ret =
      (if newsExpired c now then
        NewsRet.fallback c.news c.trends c.last_update
      else NewsRet.full c) := by
  by_cases h : newsExpired c now = true
  · simp [get_latest_data, h, hasAttr_fetch_rss]
  · have h2 : newsExpired c now = false := Bool.eq_false_iff.mpr h
    simp [get_latest_data, h2]

/-- C3 (code bug): a read of the trending view while its cache is fresh does
perform no fetch, but returns Python `None` (the `try` block falls through
without a `return`) instead of the cached items the spec promises. -/
theorem claim3_fresh_trending_read_returns_python_none :
    trendingExpired cacheFreshTrending 100 = false ∧
    cacheFreshTrending.trending_news = [tItemW] ∧
    (get_trending_news cacheFreshTrending 100 fetchFailAll).ret =
      TrendingRet.none ∧
    (get_trending_news cacheFreshTrending 100 fetchFailAll).refreshAttempts = 0 := by
  refine ⟨by decide, by decide, by decide, by decide⟩

/-- C4 counterexample: with two same-url items where the later-merged one has
the newer `published_at`, the dedup survivor is the later item — the first
occurrence in the sorted order, not in fetch/merge order as claimed. -/
theorem claim4_counterexample :
    bItem ∈ get_news_merge [] [aItem, bItem] ∧
    bItem.url = aItem.url ∧
    firstWithUrl ([] ++ [aItem, bItem]) bItem.url = some aItem ∧
    aItem ≠ bItem := by decide

/-- C4 (amended): no two items of a merged output share the same url, and the
surviving item for each url is the first occurrence in the
`published_at`-descending sorted order the dedup pass runs on (which, for
items with equal `published_at`, coincides with fetch/merge order because
the sort is stable), not the first in raw fetch/merge order. -/
theorem claim4_amended_dedup_first_in_sorted_order (world rss : List NItem) :
    ((get_news_merge world rss).map (fun x => x.url)).Nodup ∧
    ∀ x ∈ get_news_merge world rss,
      firstWithUrl (sortNews (world ++ rss)) x.url = some x := by
  refine ⟨(dedup_nodup (sortNews (world ++ rss)) []).1, ?_⟩
  intro x hx
  rw [get_news_merge] at hx
  rw [firstWithUrl]
  exact (dedup_find hx).2

/-- Witness for the amended C4 at a concrete two-item merge. -/
theorem claim4_amended_witness :
    firstWithUrl (sortNews ([] ++ [aItem, bItem])) bItem.url = some bItem :=
  (claim4_amended_dedup_first_in_sorted_order [] [aItem, bItem]).2 bItem
    (by decide)

/-- C5 counterexample: a trending refresh returns its items in feed order
without any sort, so a feed whose entries arrive oldest-first yields a
merged result list that is not `published_at`-descending. -/
theorem claim5_counterexample :
    (get_trending_news initCache 0 fetchC5).ret =
      TrendingRet.items [mkTrendItem "ynet" entryC5a, mkTrendItem "ynet" entryC5b] ∧
    chainDesc [mkTrendItem "ynet" entryC5a, mkTrendItem "ynet" entryC5b] = false := by
  decide

/-- C5 (amended): every `get_news` merged result list is ordered by
`published_at` descending, all items with an absent `published_at` (the
empty string) appear after all items with a present one, ties keep their
original relative order (the sort is stable: filtering by any key is
preserved), and the sort is a permutation that never raises since every key
is a string; the trending views return items in fetch order, unsorted. -/
theorem claim5_amended_news_sorted_trending_unsorted (world rss : List NItem) :
    (get_news_merge world rss).Pairwise pubGE ∧
    (get_news_merge world rss).Pairwise
      (fun a b => a.published_at = "" → b.published_at = "") ∧
    (∀ k, (sortNews (world ++ rss)).filter (fun y => y.published_at == k) =
      (world ++ rss).filter (fun y => y.published_at == k)) ∧
    (sortNews (world ++ rss)).Perm (world ++ rss) := by
  have hp : (sortNews (world ++ rss)).Pairwise pubGE :=
    sortNews_pairwise (world ++ rss)
  have hsub : (get_news_merge world rss).Sublist (sortNews (world ++ rss)) :=
    dedup_sublist (sortNews (world ++ rss)) []
  have h1 : (get_news_merge world rss).Pairwise pubGE := hp.sublist hsub
  refine ⟨h1, ?_, fun k => sortNews_filter (world ++ rss) k,
    sortNews_perm (world ++ rss)⟩
  refine h1.imp ?_
  intro a b hge ha
  rw [pubGE, ha] at hge
  exact eq_empty_of_pyStrLt_empty hge

lemma any_iff_score_pos (text : String) (kws : List String × List String) :
    (kws.1.any (fun kw => strIn kw text) || kws.2.any (fun kw => strIn kw text)) =
      decide (0 < specScore text kws) := by
  rcases kws with ⟨he, en⟩
  by_cases h : (he.any (fun kw => strIn kw text) ||
      en.any (fun kw => strIn kw text)) = true
  · rw [h]
    symm
    rw [decide_eq_true_iff]
    rcases Bool.or_eq_true_iff.mp h with hh | hh
    · obtain ⟨kw, hkw, hs⟩ := List.any_eq_true.mp hh
      have hmem : kw ∈ he.filter (fun kw => strIn kw text) :=
        List.mem_filter.mpr ⟨hkw, hs⟩
      have hlen : 0 < (he.filter (fun kw => strIn kw text)).length :=
        List.length_pos.mpr (List.ne_nil_of_mem hmem)
      simp only [specScore]
      omega
    · obtain ⟨kw, hkw, hs⟩ := List.any_eq_true.mp hh
      have hmem : kw ∈ en.filter (fun kw => strIn kw text) :=
        List.mem_filter.mpr ⟨hkw, hs⟩
      have hlen : 0 < (en.filter (fun kw => strIn kw text)).length :=
        List.length_pos.mpr (List.ne_nil_of_mem hmem)
      simp only [specScore]
      omega
  · have h2 := Bool.eq_false_iff.mpr h
    rw [h2]
    symm
    rw [decide_eq_false_iff_not]
    intro hpos
    simp only [specScore] at hpos
    rcases Bool.or_eq_false_iff.mp h2 with ⟨hhe, hen⟩
    have hh0 : he.filter (fun kw => strIn kw text) = [] :=
      List.filter_eq_nil_iff.mpr (fun a ha => by
        have := List.any_eq_false.mp hhe a ha
        simpa using this)
    have he0 : en.filter (fun kw => strIn kw text) = [] :=
      List.filter_eq_nil_iff.mpr (fun a ha => by
        have := List.any_eq_false.mp hen a ha
        simpa using this)
    rw [hh0, he0] at hpos
    simp at hpos

/-- C6 counterexample: on a body holding three business keywords and one
politics keyword, the categorizer returns `politics` (the first category in
table order with any match), while the claimed highest-score rule — here
computed by the spec-faithful `specCategorizer` — demands `business`. -/
theorem claim6_counterexample :
    _detect_category "" "business economy market politics" = "politics" ∧
    specCategorizer "" "business economy market politics" = "business" ∧
    ("politics" : String) ≠ "business" := by decide

/-- C6 (amended): `_detect_category` returns the first category in fixed
table declaration order having at least one keyword occurrence (substring
match in either language list), regardless of relative scores; it returns
`general` exactly when every category has keyword-occurrence score 0; a
body containing only the English keyword `election` yields `politics`. -/
theorem claim6_amended_first_any_match (title content : String) :
    (_detect_category title content =
      (match categoriesHeEn.find? (fun c =>
          decide (0 < specScore (pyLower (title ++ " " ++ content)) c.2)) with
        | some c => c.1
        | none => "general")) ∧
    (_detect_category title content = "general" ↔
      ∀ c ∈ categoriesHeEn, specScore (pyLower (title ++ " " ++ content)) c.2 = 0) ∧
    _detect_category "" "election" = "politics" := by
  have hfun : (fun c : String × List String × List String =>
      c.2.1.any (fun kw => strIn kw (pyLower (title ++ " " ++ content))) ||
      c.2.2.any (fun kw => strIn kw (pyLower (title ++ " " ++ content)))) =
      (fun c : String × List String × List String =>
        decide (0 < specScore (pyLower (title ++ " " ++ content)) c.2)) := by
    funext c
    exact any_iff_score_pos (pyLower (title ++ " " ++ content)) c.2
  have hdef : _detect_category title content =
      (match categoriesHeEn.find? (fun c : String × List String × List String =>
          c.2.1.any (fun kw => strIn kw (pyLower (title ++ " " ++ content))) ||
          c.2.2.any (fun kw => strIn kw (pyLower (title ++ " " ++ content)))) with
        | some c => c.1
        | none => "general") := rfl
  refine ⟨by rw [hdef, hfun], ?_, by decide⟩
  rw [hdef, hfun]
  cases hf : categoriesHeEn.find? (fun c : String × List String × List String =>
      decide (0 < specScore (pyLower (title ++ " " ++ content)) c.2)) with
  | none =>
    simp only
    constructor
    · intro _ c hc
      have hnp := List.find?_eq_none.mp hf c hc
      simp only [decide_eq_true_iff] at hnp
      omega
    · intro _
      trivial
  | some c =>
    have hmem := List.mem_of_find?_eq_some hf
    have hpred := List.find?_some hf
    have hne : c.1 ≠ "general" := by
      have hall : ∀ p ∈ categoriesHeEn, p.1 ≠ "general" := by decide
      exact hall c hmem
    simp only
    constructor
    · intro hgen
      exact absurd hgen hne
    · intro hall
      exfalso
      have h0 := hall c hmem
      rw [h0] at hpred
      simp at hpred

/-- C7 counterexample: an attempt answered with a 404 response is retried —
the loop sleeps once and makes a second attempt, which here succeeds —
contradicting the claim that a 4xx response is not retried. -/
theorem claim7_counterexample :
    outcomes404 0 = FetchOutcome.status 404 ∧
    (fetch_with_retry outcomes404).attempts = 2 ∧
    (fetch_with_retry outcomes404).sleeps = [1] ∧
    (fetch_with_retry outcomes404).result = some "x" := by decide

/-- C7 (amended): every network-level fetch makes between 1 and 3 attempts,
sleeping `1 second × attempt index` between consecutive attempts; every
non-200 outcome — timeout, transport error, or any non-200 status including
4xx — is retried while attempts remain; the loop stops early exactly on a
200 response, whose body it returns (no parsing happens at this level). -/
theorem claim7_amended_retry_on_any_failure (outcomes : Nat → FetchOutcome) :
    1 ≤ (fetch_with_retry outcomes).attempts ∧
    (fetch_with_retry outcomes).attempts ≤ MAX_RETRIES ∧
    (fetch_with_retry outcomes).sleeps =
      (List.range ((fetch_with_retry outcomes).attempts - 1)).map
        (fun i => RETRY_DELAY * (i + 1)) ∧
    (∀ i, i + 1 < (fetch_with_retry outcomes).attempts →
      okBody (outcomes i) = none) ∧
    ((fetch_with_retry outcomes).attempts < MAX_RETRIES →
      okBody (outcomes ((fetch_with_retry outcomes).attempts - 1)) ≠ none) ∧
    (fetch_with_retry outcomes).result =
      okBody (outcomes ((fetch_with_retry outcomes).attempts - 1)) := by
  have hunfold : fetch_with_retry outcomes = fwrGo outcomes 3 0 [] := rfl
  have hstep3 : okBody (outcomes 0) = none →
      fwrGo outcomes 3 0 [] = fwrGo outcomes 2 1 [1] := by
    intro h0
    rw [show (3 : Nat) = 2 + 1 from rfl, fwrGo_succ, h0]
    simp [RETRY_DELAY]
  have hstep2 : okBody (outcomes 1) = none →
      fwrGo outcomes 2 1 [1] = fwrGo outcomes 1 2 [1, 2] := by
    intro h1
    rw [show (2 : Nat) = 1 + 1 from rfl, fwrGo_succ, h1]
    simp [RETRY_DELAY]
  cases h0 : okBody (outcomes 0) with
  | some b =>
    have he : fetch_with_retry outcomes = ⟨some b, 1, []⟩ := by
      rw [hunfold, show (3 : Nat) = 2 + 1 from rfl, fwrGo_succ, h0]
    rw [he]
    refine ⟨by simp, by simp [MAX_RETRIES], rfl, ?_, ?_, ?_⟩
    · intro i hi
      exact absurd hi (by simp)
    · intro _
      simp [h0]
    · simp [h0]
  | none =>
    cases h1 : okBody (outcomes 1) with
    | some b =>
      have he : fetch_with_retry outcomes = ⟨some b, 2, [1]⟩ := by
        rw [hunfold, hstep3 h0, show (2 : Nat) = 1 + 1 from rfl, fwrGo_succ, h1]
      rw [he]
      refine ⟨by simp, by simp [MAX_RETRIES], rfl, ?_, ?_, ?_⟩
      · intro i hi
        have hi0 : i = 0 := by simp at hi; omega
        rw [hi0, h0]
      · intro _
        simp [h1]
      · simp [h1]
    | none =>
      cases h2 : okBody (outcomes 2) with
      | some b =>
        have he : fetch_with_retry outcomes = ⟨some b, 3, [1, 2]⟩ := by
          rw [hunfold, hstep3 h0, hstep2 h1,
            show (1 : Nat) = 0 + 1 from rfl, fwrGo_succ, h2]
        rw [he]
        refine ⟨by simp, by simp [MAX_RETRIES], rfl, ?_, ?_, ?_⟩
        · intro i hi
          have hi01 : i = 0 ∨ i = 1 := by simp at hi; omega
          rcases hi01 with hi0 | hi1
          · rw [hi0, h0]
          · rw [hi1, h1]
        · intro hlt
          exact absurd hlt (by simp [MAX_RETRIES])
        · simp [h2]
      | none =>
        have he : fetch_with_retry outcomes = ⟨none, 3, [1, 2]⟩ := by
          rw [hunfold, hstep3 h0, hstep2 h1,
            show (1 : Nat) = 0 + 1 from rfl, fwrGo_succ, h2]
          rfl
        rw [he]
        refine ⟨by simp, by simp [MAX_RETRIES], rfl, ?_, ?_, ?_⟩
        · intro i hi
          have hi01 : i = 0 ∨ i = 1 := by simp at hi; omega
          rcases hi01 with hi0 | hi1
          · rw [hi0, h0]
          · rw [hi1, h1]
        · intro hlt
          exact absurd hlt (by simp [MAX_RETRIES])
        · simp [h2]

/-- Witness for the amended C7: instantiating the non-final-attempt and
early-stop clauses at the concrete 404-then-200 outcome map. -/
theorem claim7_amended_witness :
    okBody (outcomes404 0) = none ∧
    okBody (outcomes404 ((fetch_with_retry outcomes404).attempts - 1)) ≠ none :=
  ⟨(claim7_amended_retry_on_any_failure outcomes404).2.2.2.1 0 (by decide),
   (claim7_amended_retry_on_any_failure outcomes404).2.2.2.2.1 (by decide)⟩

/-- C8 counterexample: an item whose url is the empty string is admitted
into the merged output — no url filter exists before deduplication. -/
theorem claim8_counterexample :
    emptyUrlItem ∈ get_news_merge [] [emptyUrlItem] ∧
    emptyUrlItem.url = "" := by decide

/-- C8 (amended): the merge never filters on url emptiness: a url — the
empty string included — is represented in the deduplicated output exactly
when some input item carries it (and then, by deduplication, exactly
once). -/
theorem claim8_amended_url_preserved (world rss : List NItem) (u : String) :
    (∃ x ∈ get_news_merge world rss, x.url = u) ↔
      ∃ x ∈ world ++ rss, x.url = u := by
  constructor
  · rintro ⟨x, hx, hxu⟩
    rw [get_news_merge] at hx
    have hx2 : x ∈ sortNews (world ++ rss) :=
      (dedup_sublist (sortNews (world ++ rss)) []).subset hx
    exact ⟨x, (sortNews_perm (world ++ rss)).subset hx2, hxu⟩
  · rintro ⟨x, hx, hxu⟩
    rw [get_news_merge]
    exact dedup_exists_url
      ⟨x, (sortNews_perm (world ++ rss)).symm.subset hx, hxu⟩ rfl

/-- C9: for every url, source and network outcome, `fetch_full_content`
returns the all-absent result (empty content, no image url, no author; the
registry rows carry only `main`/`trending` keys, so the selector lookup
raises `KeyError`, swallowed by the handler); consequently the article-page
enrichment in `fetch_trending_news` never contributes an image and the
image selection always falls back to the feed-entry extraction. -/
theorem claim9_fetch_full_content_all_absent (u source : String)
    (out : HttpOutcome) (e : Entry) :
    fetch_full_content u source out = ⟨"", none, none⟩ ∧
    trendingImage e (fetch_full_content u source out) =
      _extract_image_from_entry e := by
  have hsel : ∀ p ∈ RSS_FEEDS, dictGet p.2 "content_selector" = none := by
    decide
  have h1 : fetch_full_content u source out = ⟨"", none, none⟩ := by
    rcases out with _ | ⟨status, html⟩
    · rfl
    · rw [fetch_full_content]
      by_cases hs : (status == 200) = true
      · rw [if_pos hs]
        cases hfi : dictGet RSS_FEEDS source with
        | none => rfl
        | some fi =>
          cases hfind : RSS_FEEDS.find? (fun p => p.1 == source) with
          | none =>
            rw [dictGet, hfind] at hfi
            exact Option.noConfusion hfi
          | some p =>
            rw [dictGet, hfind] at hfi
            have hp2 : p.2 = fi := Option.some.inj hfi
            have hmem := List.mem_of_find?_eq_some hfind
            have hnone := hsel p hmem
            rw [hp2] at hnone
            simp [hnone]
      · rw [if_neg hs]
  refine ⟨h1, ?_⟩
  rw [h1]
  rfl


/-- C10: for every key, category and network outcome, `fetch_news_api`
returns the empty list having completed no HTTP request: with a falsy key it
bails out at once, and otherwise the lookup of `self.NEWS_API_PARAMS` (a
module-level constant, not an instance or class attribute) raises an
`AttributeError` swallowed by the catch-all handler. -/
theorem claim10_fetch_news_api_always_empty (key category : Option String)
    (out : ApiOutcome) :
    fetch_news_api key category out = ([], 0) := by
  by_cases hk : pyTruthy key = true
  · simp [fetch_news_api, hk, hasAttr_news_params]
  · simp [fetch_news_api, Bool.eq_false_iff.mpr hk]
